import Mathlib

/-!
Shallow embedding of the connecticut-rs rules engine (src/location.rs,
src/board.rs, src/position.rs) and proofs about the frozen claims.

Modelling conventions:
* Rust isize coordinates are modelled as Int.  The bounds check
  (0..size).contains(&(x as usize)) is modelled as 0 <= x < size, which agrees
  with the Rust cast semantics for every board whose dimensions fit in memory
  (size < 2^63): a negative isize cast to usize lands above 2^63 and fails the
  range check either way.
* Rust HashSet<Location> fields of Position are modelled as Finset Location.
  The only HashSet operations the pipeline uses on them are contains, insert
  and remove, which are order independent.
* The HashSet of relative offsets built by get_connection_cloud is iterated in
  an unspecified order in Rust; it is modelled as a duplicate-free list in
  first-insertion order.  Every theorem below that evaluates the pipeline at a
  concrete input has an order-robust conclusion.
* The depth-first search of connection_to_edge is deterministic in Rust
  (Vec used as a stack).  It is embedded with an explicit fuel argument plus a
  proof that the chosen fuel bound never runs out, and with an extra reorder
  parameter (instantiated with id to give the source function) used to state
  the traversal-order-independence claim.
* &mut self methods returning Result<(), ErrorKind> are modelled as functions
  returning (new state, Option ErrorKind): the state component is whatever the
  Rust object holds when the call returns, so partial mutation before an error
  is observable, exactly as in the source.
-/

deriving instance DecidableEq for Except

namespace Conn

/-- Mirror of `enum Player` in src/position.rs. -/
inductive Player where
  | black
  | white
deriving DecidableEq, Repr

/-- Mirror of `impl Default for Player`: the default player is Black. -/
def Player.default : Player := Player.black

/-- Mirror of `Player::switch`: White goes to Black, anything else to White. -/
def Player.switch : Player → Player
  | Player.white => Player.black
  | _ => Player.white

/-- Mirror of `enum BoardValue` in src/board.rs. -/
inductive BoardValue where
  | empty
  | filled (p : Player)
deriving DecidableEq, Repr

/-- Mirror of `BoardValue::is_color`. -/
def BoardValue.is_color : BoardValue → Player → Bool
  | BoardValue.empty, _ => false
  | BoardValue.filled i, player => decide (i = player)

/-- Mirror of `struct Location` in src/location.rs (isize coordinates). -/
structure Location where
  x : Int
  y : Int
deriving DecidableEq, Repr

/-- Mirror of `impl Add for &Location` (componentwise addition). -/
def Location.add (a b : Location) : Location := ⟨b.x + a.x, b.y + a.y⟩

/-- The single error kind the source uses: `std::io::ErrorKind::InvalidInput`
(the spec calls its two uses InvalidCoordinate and IllegalMove, but the code
returns the same variant for both). -/
inductive ErrorKind where
  | invalidInput
deriving DecidableEq, Repr

/-- Mirror of `struct Board` in src/board.rs: a Vec of Vec of cells plus the
two stored dimensions.  Indexing is board[x][y], exactly as in the source. -/
structure Board where
  board : List (List BoardValue)
  size_x : Nat
  size_y : Nat
deriving DecidableEq, Repr

/-- Mirror of `Board::in_bounds` (see the coordinate-cast note at the top). -/
def in_bounds (b : Board) (l : Location) : Bool :=
  decide (0 ≤ l.x ∧ l.x < (b.size_x : Int) ∧ 0 ≤ l.y ∧ l.y < (b.size_y : Int))

/-- The raw write `self.board[x][y] = v` performed by clear_at/insert_piece
after their bounds check. -/
def writeCell (b : Board) (l : Location) (v : BoardValue) : Board :=
  { b with
    board := b.board.set l.x.toNat ((b.board.getD l.x.toNat []).set l.y.toNat v) }

/-- Mirror of `Board::clear_at`. -/
def clear_at (b : Board) (l : Location) : Except ErrorKind Board :=
  if in_bounds b l then Except.ok (writeCell b l BoardValue.empty)
  else Except.error ErrorKind.invalidInput

/-- Mirror of `Board::insert_piece`. -/
def insert_piece (b : Board) (color : Player) (l : Location) : Except ErrorKind Board :=
  if in_bounds b l then Except.ok (writeCell b l (BoardValue.filled color))
  else Except.error ErrorKind.invalidInput

/-- Mirror of `Board::get_at`.  (For boards whose stored dimensions match the
list lengths — every board the program builds — the getD defaults are never
used.) -/
def get_at (b : Board) (l : Location) : Except ErrorKind BoardValue :=
  if in_bounds b l then Except.ok ((b.board.getD l.x.toNat []).getD l.y.toNat BoardValue.empty)
  else Except.error ErrorKind.invalidInput

/-- Mirror of `Board::is_color_at` (false on error, never an error itself). -/
def is_color_at (b : Board) (l : Location) (player : Player) : Bool :=
  match get_at b l with
  | Except.ok i => i.is_color player
  | Except.error _ => false

/-- Mirror of `BoardProxy::get_absolute`: offset plus center. -/
def get_absolute (center l : Location) : Location := ⟨l.x + center.x, l.y + center.y⟩

/-- Mirror of `BoardProxy::is_color_at`: query at center plus offset. -/
def proxy_is_color_at (b : Board) (center : Location) (dx dy : Int) (player : Player) : Bool :=
  is_color_at b ⟨center.x + dx, center.y + dy⟩ player

/-- Mirror of `struct Position` in src/position.rs. -/
structure Position where
  board : Board
  turn : Player
  legal_white_moves : Finset Location
  legal_black_moves : Finset Location
deriving DecidableEq

/-- The legal set of a given player (the source selects it by matching on the
turn; this helper is the same match, keyed by an explicit player). -/
def legalFor (pos : Position) (p : Player) : Finset Location :=
  match p with
  | Player.black => pos.legal_black_moves
  | _ => pos.legal_white_moves

/-- Mirror of `Position::legal_moves`: the current mover's legal set. -/
def legal_moves (pos : Position) : Finset Location := legalFor pos pos.turn

/-- Mirror of `Position::connections_around`: the eight leap offsets around a
location, in source order, filtered to the board. -/
def connections_around (b : Board) (l : Location) : List Location :=
  ([get_absolute l ⟨-2, 1⟩, get_absolute l ⟨2, 1⟩, get_absolute l ⟨2, -1⟩,
    get_absolute l ⟨-2, -1⟩, get_absolute l ⟨-1, 2⟩, get_absolute l ⟨1, 2⟩,
    get_absolute l ⟨1, -2⟩, get_absolute l ⟨-1, -2⟩]).filter
    (fun i => decide (0 ≤ i.x ∧ i.x < (b.size_x : Int) ∧ 0 ≤ i.y ∧ i.y < (b.size_y : Int)))

/-- Mirror of `Position::is_connection_between`: matches on the coordinate
delta and tests the two flanking pairs of the leap; any other delta gives
Ok(false).  Note that the source never reads the cell at frm. -/
def is_connection_between (b : Board) (frm tgt : Location) (player : Player) :
    Except ErrorKind Bool :=
  let delta_x := tgt.x - frm.x
  let delta_y := tgt.y - frm.y
  let other_player := player.switch
  let pc : Int → Int → Bool := fun dx dy => proxy_is_color_at b frm dx dy other_player
  Except.ok (
    if delta_x = 2 ∧ delta_y = 1 then
      !((pc 0 1 || pc 1 1) && (pc 1 0 || pc 2 0))
    else if delta_x = 2 ∧ delta_y = -1 then
      !((pc 0 (-1) || pc 1 (-1)) && (pc 1 0 || pc 2 0))
    else if delta_x = -2 ∧ delta_y = 1 then
      !((pc 0 1 || pc (-1) 1) && (pc (-1) 0 || pc (-2) 0))
    else if delta_x = -2 ∧ delta_y = -1 then
      !((pc 0 (-1) || pc (-1) (-1)) && (pc (-1) 0 || pc (-2) 0))
    else if delta_x = 1 ∧ delta_y = 2 then
      !((pc 1 0 || pc 1 1) && (pc 0 1 || pc 0 2))
    else if delta_x = 1 ∧ delta_y = -2 then
      !((pc 1 0 || pc 1 (-1)) && (pc 0 (-1) || pc 0 (-2)))
    else if delta_x = -1 ∧ delta_y = 2 then
      !((pc (-1) 0 || pc (-1) 1) && (pc 0 1 || pc 0 2))
    else if delta_x = -1 ∧ delta_y = -2 then
      !((pc (-1) 0 || pc (-1) (-1)) && (pc 0 (-1) || pc 0 (-2)))
    else false)

/-- The `.unwrap_or(false)` view of is_connection_between used by
get_reachable. -/
def connClear (b : Board) (frm tgt : Location) (player : Player) : Bool :=
  match is_connection_between b frm tgt player with
  | Except.ok v => v
  | Except.error _ => false

/-- Mirror of `Position::get_reachable`. -/
def get_reachable (b : Board) (location : Location) (player : Player) : List Location :=
  (connections_around b location).filter (fun square => connClear b location square player)

/-- Insertion into the offset HashSet built by get_connection_cloud, modelled
as a duplicate-free list kept in first-insertion order. -/
def cloudInsert (l : List (Int × Int)) (q : Int × Int) : List (Int × Int) :=
  if q ∈ l then l else l ++ [q]

/-- Mirror of `Position::get_connection_cloud`: for each of twelve probed
relative offsets holding an opponent piece, contribute the fixed offsets the
source inserts (in source order), then map to absolute coordinates and filter
to the board. -/
def get_connection_cloud (b : Board) (location : Location) :
    Except ErrorKind (List Location) :=
  match get_at b location with
  | Except.error e => Except.error e
  | Except.ok BoardValue.empty => Except.error ErrorKind.invalidInput
  | Except.ok (BoardValue.filled i) =>
    let other := i.switch
    let pb : Int → Int → Bool := fun dx dy => proxy_is_color_at b location dx dy other
    let r0 : List (Int × Int) := []
    let r1 := if pb (-2) 0 then cloudInsert (cloudInsert r0 (0, 1)) (0, -1) else r0
    let r2 := if pb (-1) 1 then cloudInsert (cloudInsert r1 (0, -1)) (1, 0) else r1
    let r3 := if pb (-1) 0 then
        cloudInsert (cloudInsert (cloudInsert (cloudInsert r2 (1, 1)) (1, -1)) (0, 2)) (0, -2)
      else r2
    let r4 := if pb (-1) (-1) then cloudInsert (cloudInsert r3 (1, 0)) (0, 1) else r3
    let r5 := if pb 0 2 then cloudInsert (cloudInsert r4 (-1, 0)) (1, 0) else r4
    let r6 := if pb 0 1 then
        cloudInsert (cloudInsert (cloudInsert (cloudInsert r5 (-1, -1)) (1, -1)) (-2, 0)) (2, 0)
      else r5
    let r7 := if pb 0 (-1) then
        cloudInsert (cloudInsert (cloudInsert (cloudInsert r6 (1, 1)) (-1, 1)) (-2, 0)) (2, 0)
      else r6
    let r8 := if pb 0 (-2) then cloudInsert (cloudInsert r7 (-1, 0)) (1, 0) else r7
    let r9 := if pb 1 1 then cloudInsert (cloudInsert r8 (0, -1)) (-1, 0) else r8
    let r10 := if pb 1 0 then
        cloudInsert (cloudInsert (cloudInsert (cloudInsert r9 (-1, 1)) (-1, -1)) (0, 2)) (0, -2)
      else r9
    let r11 := if pb 1 (-1) then cloudInsert (cloudInsert r10 (0, 1)) (-1, 0) else r10
    let r12 := if pb 2 0 then cloudInsert (cloudInsert r11 (0, 1)) (0, -1) else r11
    Except.ok ((r12.map (fun q => (⟨location.x + q.1, location.y + q.2⟩ : Location))).filter
      (fun i => decide (0 ≤ i.x ∧ i.x < (b.size_x : Int) ∧ 0 ≤ i.y ∧ i.y < (b.size_y : Int))))

/-- Mirror of `Position::get_cut_off_squares`: the Empty cells of the
connection cloud from which the opponent can no longer reach any opponent
piece. -/
def get_cut_off_squares (b : Board) (location : Location) :
    Except ErrorKind (List Location) :=
  match get_at b location with
  | Except.error e => Except.error e
  | Except.ok BoardValue.empty => Except.error ErrorKind.invalidInput
  | Except.ok (BoardValue.filled i) =>
    let other_player := i.switch
    match get_connection_cloud b location with
    | Except.error e => Except.error e
    | Except.ok cloud =>
      Except.ok (cloud.filter (fun c =>
        (match get_at b c with
         | Except.ok BoardValue.empty => true
         | _ => false) &&
        ((get_reachable b c other_player).filter
          (fun j => is_color_at b j other_player)).isEmpty))

/-- The inline border test of `Position::connection_to_edge` (x or y equal to
0 or to the last index). -/
def edge_hit (b : Board) (c : Location) : Bool :=
  decide (c.x = 0 ∨ c.x = (b.size_x : Int) - 1 ∨ c.y = 0 ∨ c.y = (b.size_y : Int) - 1)

/-- The while-let loop of `Position::connection_to_edge`.  The stack is the
Vec used as a stack (head of the list is the top); visited is the HashSet as a
duplicate-free list.  The fuel argument makes the loop structurally recursive;
the bound used by connection_to_edge is proved sufficient below.  The ro
parameter reorders the pushed neighbour list and models the claim about
arbitrary neighbour-exploration orders; the source order is ro = id. -/
def dfs (ro : List Location → List Location) (b : Board) (p : Player) :
    Nat → List Location → List Location → Option (Option (List Location))
  | 0, _, _ => none
  | Nat.succ fuel, visited, stack =>
    match stack with
    | [] => some (some visited)
    | coordinate :: rest =>
      if coordinate ∈ visited then dfs ro b p fuel visited rest
      else if edge_hit b coordinate then some none
      else
        let visited2 := coordinate :: visited
        let pushes := ro (((get_reachable b coordinate p).filter
            (fun i => is_color_at b i p)).filter (fun i => decide (¬ i ∈ visited2)))
        dfs ro b p fuel visited2 (pushes.reverse ++ rest)

/-- Mirror of `Position::connection_to_edge`, generalized by the push-order
parameter ro.  The fuel bound 9 * size_x * size_y + 9 is proved to never run
out (lemma dfs_go below), so the error in the fuel-exhaustion branch is
unreachable for any seed the pipeline passes in. -/
def connection_to_edgeWith (ro : List Location → List Location) (b : Board)
    (location : Location) : Except ErrorKind (Option (List Location)) :=
  match get_at b location with
  | Except.error e => Except.error e
  | Except.ok BoardValue.empty => Except.error ErrorKind.invalidInput
  | Except.ok (BoardValue.filled player) =>
    match dfs ro b player (9 * (b.size_x * b.size_y) + 9) [] [location] with
    | some r => Except.ok r
    | none => Except.error ErrorKind.invalidInput

/-- Mirror of `Position::connection_to_edge` (source push order). -/
def connection_to_edge (b : Board) (location : Location) :
    Except ErrorKind (Option (List Location)) :=
  connection_to_edgeWith id b location

/-- The clear_at loop of `Position::capture_piece`. -/
def clearAll (b : Board) : List Location → Board × Option ErrorKind
  | [] => (b, none)
  | piece :: rest =>
    match clear_at b piece with
    | Except.error e => (b, some e)
    | Except.ok b2 => clearAll b2 rest

/-- Mirror of `Position::capture_piece`: clears every captured cell (the
location argument is unused in the source as well); legal-move updates are an
unimplemented TODO in the source. -/
def capture_piece (b : Board) (location : Location) (pieces_to_remove : List Location) :
    Board × Option ErrorKind :=
  let _ := location
  clearAll b pieces_to_remove

/-- The capturing for-loop of `Position::make_move`: iterate over the seed
snapshot, run connection_to_edge on each, capture when a removal set comes
back, abort on the first error. -/
def captureLoop (b : Board) : List Location → Board × Option ErrorKind
  | [] => (b, none)
  | coordinate :: rest =>
    match connection_to_edge b coordinate with
    | Except.error e => (b, some e)
    | Except.ok none => captureLoop b rest
    | Except.ok (some pieces) =>
      match capture_piece b coordinate pieces with
      | (b2, some e) => (b2, some e)
      | (b2, none) => captureLoop b2 rest

/-- Mirror of `Position::make_move`.  Returns the state the Rust object holds
when the call returns together with the error, so partial mutation before an
error is observable exactly as in the source. -/
def make_move (pos : Position) (location : Location) : Position × Option ErrorKind :=
  if location ∈ legal_moves pos then
    match insert_piece pos.board pos.turn location with
    | Except.error e => (pos, some e)
    | Except.ok board1 =>
      let reach := get_reachable board1 location pos.turn
      let moverSet := reach.foldl (fun s i => insert i s) (legalFor pos pos.turn)
      let lw1 := match pos.turn with
        | Player.white => moverSet
        | Player.black => pos.legal_white_moves
      let lb1 := match pos.turn with
        | Player.black => moverSet
        | Player.white => pos.legal_black_moves
      let lw2 := lw1.erase location
      let lb2 := lb1.erase location
      match get_cut_off_squares board1 location with
      | Except.error e =>
        ({ board := board1, turn := pos.turn,
           legal_white_moves := lw2, legal_black_moves := lb2 }, some e)
      | Except.ok cut =>
        let lw3 := match pos.turn with
          | Player.black => cut.foldl (fun s i => s.erase i) lw2
          | Player.white => lw2
        let lb3 := match pos.turn with
          | Player.white => cut.foldl (fun s i => s.erase i) lb2
          | Player.black => lb2
        match get_connection_cloud board1 location with
        | Except.error e =>
          ({ board := board1, turn := pos.turn,
             legal_white_moves := lw3, legal_black_moves := lb3 }, some e)
        | Except.ok cloud =>
          let seeds := cloud.filter (fun i => is_color_at board1 i pos.turn.switch)
          match captureLoop board1 seeds with
          | (board2, some e) =>
            ({ board := board2, turn := pos.turn,
               legal_white_moves := lw3, legal_black_moves := lb3 }, some e)
          | (board2, none) =>
            ({ board := board2, turn := pos.turn.switch,
               legal_white_moves := lw3, legal_black_moves := lb3 }, none)
  else (pos, some ErrorKind.invalidInput)

/-- Mirror of `impl Default for Board`: a 13 x 13 grid of Empty cells. -/
def Board.default : Board :=
  { size_x := 13, size_y := 13,
    board := List.replicate 13 (List.replicate 13 BoardValue.empty) }

/-- Mirror of the edge-set construction in `impl Default for Position`:
(x, 0) and (x, size_y - 1) for x in 0..size_x, then (0, y) and
(size_x - 1, y) for y in 1..size_y-1. -/
def defaultEdges : Finset Location :=
  let s1 := (List.range 13).foldl
    (fun s x => insert (⟨(x : Int), 13 - 1⟩ : Location) (insert (⟨(x : Int), 0⟩ : Location) s)) ∅
  (List.range' 1 11).foldl
    (fun s y => insert (⟨13 - 1, (y : Int)⟩ : Location) (insert (⟨0, (y : Int)⟩ : Location) s)) s1

/-- Mirror of `impl Default for Position`. -/
def Position.default : Position :=
  { board := Board.default, turn := Player.default,
    legal_white_moves := defaultEdges, legal_black_moves := defaultEdges }

/-! Spec-side definitions, written from the words of the specification, used
to compare the embedded source functions with the behaviour the spec
describes. -/

/-- All in-bounds coordinates of a board, as a finite set. -/
def inBoundsCells (b : Board) : Finset Location :=
  (Finset.range b.size_x ×ˢ Finset.range b.size_y).image
    (fun q => (⟨(q.1 : Int), (q.2 : Int)⟩ : Location))

/-- The full 13 x 13 grid of the default board, from the spec. -/
def allCells13 : Finset Location := inBoundsCells Board.default

/-- The spec's perimeter of the default board: every cell with x or y equal
to 0 or to 12, and no other cell. -/
def perimeterSpec : Finset Location :=
  allCells13.filter (fun l => l.x = 0 ∨ l.x = 12 ∨ l.y = 0 ∨ l.y = 12)

/-- The spec's exhaustive flanking-pair table of section 4.2: for each of the
eight leap offsets, the two flanking pairs (side A and side B) relative to the
leap's origin. -/
def specFlankPairs :
    List ((Int × Int) × ((Int × Int) × (Int × Int)) × ((Int × Int) × (Int × Int))) :=
  [((2, 1), ((0, 1), (1, 1)), ((1, 0), (2, 0))),
   ((2, -1), ((0, -1), (1, -1)), ((1, 0), (2, 0))),
   ((-2, 1), ((0, 1), (-1, 1)), ((-1, 0), (-2, 0))),
   ((-2, -1), ((0, -1), (-1, -1)), ((-1, 0), (-2, 0))),
   ((1, 2), ((1, 0), (1, 1)), ((0, 1), (0, 2))),
   ((1, -2), ((1, 0), (1, -1)), ((0, -1), (0, -2))),
   ((-1, 2), ((-1, 0), (-1, 1)), ((0, 1), (0, 2))),
   ((-1, -2), ((-1, 0), (-1, -1)), ((0, -1), (0, -2)))]

/-- Opponent occupancy of a flanking cell given as an offset from the leap
origin (the spec's "flanking cell is opponent-occupied"). -/
def oppAt (b : Board) (frm : Location) (mover : Player) (off : Int × Int) : Bool :=
  is_color_at b ⟨frm.x + off.1, frm.y + off.2⟩ mover.switch

/-- One step of the same-colour reachability graph the capture search
traverses: tgt is an in-bounds leap neighbour of src, the leap is clear, and
tgt holds a piece of the group's colour. -/
def reachStep (b : Board) (p : Player) (src tgt : Location) : Prop :=
  tgt ∈ connections_around b src ∧ connClear b src tgt p = true ∧
    is_color_at b tgt p = true

/-- Membership in the connected component of the seed under reachStep: the
spec's "entire visited connected component". -/
def connectedFrom (b : Board) (p : Player) (seed z : Location) : Prop :=
  Relation.ReflTransGen (reachStep b p) seed z

/-! Concrete positions used by counterexamples and failing inputs. -/

/-- Board-building helper mirroring the tests' insert_piece(..).unwrap(). -/
def setPiece (b : Board) (p : Player) (l : Location) : Board :=
  match insert_piece b p l with
  | Except.ok b2 => b2
  | Except.error _ => b

/-- A 13 x 13 board with Black stones at (8,6) and (6,7) only. -/
def boardStar : Board :=
  setPiece (setPiece Board.default Player.black ⟨8, 6⟩) Player.black ⟨6, 7⟩

/-- A Position with White to move whose only legal White placement is (6,6):
placing there puts both Black stones into the connection cloud of (6,6), and
they form one edge-disconnected group, so the capture loop sees two seeds of
the same captured group. -/
def PStar : Position :=
  { board := boardStar, turn := Player.white,
    legal_white_moves := {⟨6, 6⟩}, legal_black_moves := ∅ }

/-- The successive positions of the legal game Black (0,0), White (12,12),
Black (2,1) played from the default position. -/
def c1pos1 : Position := (make_move Position.default ⟨0, 0⟩).1

/-- Second position of the C1 trace. -/
def c1pos2 : Position := (make_move c1pos1 ⟨12, 12⟩).1

/-- Third position of the C1 trace. -/
def c1pos3 : Position := (make_move c1pos2 ⟨2, 1⟩).1

set_option maxRecDepth 10000

/-! Claim theorems. -/

/-- C9: Position::default() builds a 13 x 13 Grid in which every cell is
Empty, both legal-placement sets are exactly the perimeter cells of the
board, and the starting colour is fixed deterministically (Black, the Player
default). -/
theorem c9_default_position :
    Position.default.legal_white_moves = perimeterSpec ∧
    Position.default.legal_black_moves = perimeterSpec ∧
    (∀ l ∈ allCells13, get_at Position.default.board l = Except.ok BoardValue.empty) ∧
    Position.default.board.size_x = 13 ∧ Position.default.board.size_y = 13 ∧
    Position.default.turn = Player.default := by
  refine ⟨by decide, by decide, by decide, rfl, rfl, rfl⟩

/-- C6: for every Position and every coordinate not in the current mover's
legal-placement set, make_move fails with the IllegalMove error
(ErrorKind::InvalidInput) and performs no mutation at all. -/
theorem c6_illegal_move_no_mutation (pos : Position) (loc : Location)
    (h : loc ∉ legal_moves pos) :
    make_move pos loc = (pos, some ErrorKind.invalidInput) := by
  unfold make_move
  rw [if_neg h]

/-- Witness for C6 at a concrete input: (5,5) is interior, hence not legal on
the default position, and the call leaves the position untouched. -/
theorem c6_illegal_move_no_mutation_witness :
    (⟨5, 5⟩ : Location) ∉ legal_moves Position.default ∧
    make_move Position.default ⟨5, 5⟩ = (Position.default, some ErrorKind.invalidInput) :=
  ⟨by decide, c6_illegal_move_no_mutation Position.default ⟨5, 5⟩ (by decide)⟩

/-- C2 is violated by the source: on the position PStar (White to move, Black
group {(8,6),(6,7)} in the cloud of the White placement (6,6)), make_move
returns an error, yet the placed White stone is observable afterwards — the
call mutated the position and then failed. -/
theorem c2_partial_mutation_after_error :
    (make_move PStar ⟨6, 6⟩).2 = some ErrorKind.invalidInput ∧
    get_at PStar.board ⟨6, 6⟩ = Except.ok BoardValue.empty ∧
    get_at ((make_move PStar ⟨6, 6⟩).1).board ⟨6, 6⟩ =
      Except.ok (BoardValue.filled Player.white) ∧
    (make_move PStar ⟨6, 6⟩).1 ≠ PStar := by
  refine ⟨by decide, by decide, by decide, by decide⟩

/-- C3 is violated by the source: on PStar both Black stones are seeds of the
capture loop and lie in the same captured group; the first seed's capture
clears both, and the loop then fails with InvalidInput on the second
(now Empty) seed instead of skipping it — make_move does not succeed. -/
theorem c3_second_seed_not_skipped :
    (make_move PStar ⟨6, 6⟩).2 ≠ none ∧
    get_at PStar.board ⟨8, 6⟩ = Except.ok (BoardValue.filled Player.black) ∧
    get_at PStar.board ⟨6, 7⟩ = Except.ok (BoardValue.filled Player.black) ∧
    connection_to_edge (setPiece boardStar Player.white ⟨6, 6⟩) ⟨8, 6⟩ =
      Except.ok (some [⟨6, 7⟩, ⟨8, 6⟩]) ∧
    get_at ((make_move PStar ⟨6, 6⟩).1).board ⟨8, 6⟩ = Except.ok BoardValue.empty ∧
    get_at ((make_move PStar ⟨6, 6⟩).1).board ⟨6, 7⟩ = Except.ok BoardValue.empty := by
  refine ⟨by decide, by decide, by decide, by decide, by decide, by decide⟩

/-- Counterexample to C1: after the legal game Black (0,0), White (12,12),
Black (2,1) from the default position, the coordinate (0,0) is in Black's
legal-placement set although its cell is Occupied by Black — step 3 of the
pipeline inserted an occupied reachable cell. -/
theorem c1_counterexample :
    (make_move Position.default ⟨0, 0⟩).2 = none ∧
    (make_move c1pos1 ⟨12, 12⟩).2 = none ∧
    (make_move c1pos2 ⟨2, 1⟩).2 = none ∧
    (⟨0, 0⟩ : Location) ∈ c1pos3.legal_black_moves ∧
    get_at c1pos3.board ⟨0, 0⟩ = Except.ok (BoardValue.filled Player.black) := by
  refine ⟨by decide, by decide, by decide, by decide, by decide⟩

/-- Counterexample to C7: on a fully Empty default board the connection test
from the Empty cell (5,5) to (7,6) returns Ok(true), not false, and
reachable_from at the Empty cell (5,5) is nonempty — the source never reads
the cell at the leap's origin. -/
theorem c7_counterexample :
    get_at Board.default ⟨5, 5⟩ = Except.ok BoardValue.empty ∧
    is_connection_between Board.default ⟨5, 5⟩ ⟨7, 6⟩ Player.white = Except.ok true ∧
    get_reachable Board.default ⟨5, 5⟩ Player.white ≠ [] := by
  refine ⟨by decide, by decide, by decide⟩

/-- getD after set at a different index is unchanged. -/
lemma getD_set_ne {α : Type} (l : List α) (i j : Nat) (a d : α) (h : i ≠ j) :
    (l.set i a).getD j d = l.getD j d := by
  induction l generalizing i j with
  | nil => simp
  | cons hd tl ih =>
    cases i with
    | zero =>
      cases j with
      | zero => exact absurd rfl h
      | succ j2 => simp
    | succ i2 =>
      cases j with
      | zero => simp
      | succ j2 => simpa using ih i2 j2 (by omega)

/-- getD after set at the same in-range index returns the new value. -/
lemma getD_set_self {α : Type} (l : List α) (i : Nat) (a d : α) (h : i < l.length) :
    (l.set i a).getD i d = a := by
  induction l generalizing i with
  | nil => simp at h
  | cons hd tl ih =>
    cases i with
    | zero => simp
    | succ i2 => simpa using ih i2 (by simpa using h)

/-- set at an out-of-range index is the identity. -/
lemma set_of_length_le {α : Type} (l : List α) (i : Nat) (a : α) (h : l.length ≤ i) :
    l.set i a = l := by
  induction l generalizing i with
  | nil => simp
  | cons hd tl ih =>
    cases i with
    | zero => simp at h
    | succ i2 => simpa using ih i2 (by simpa using h)

/-- writeCell does not change the stored dimensions, hence not in_bounds. -/
lemma in_bounds_writeCell (b : Board) (w l : Location) (v : BoardValue) :
    in_bounds (writeCell b w v) l = in_bounds b l := rfl

/-- Reading any cell other than the written one is unchanged, provided the
written coordinate is in bounds (so that its list indices denote it
uniquely). -/
lemma get_at_writeCell_ne (b : Board) (w l : Location) (v : BoardValue)
    (hw : in_bounds b w = true) (hne : l.x ≠ w.x ∨ l.y ≠ w.y) :
    get_at (writeCell b w v) l = get_at b l := by
  have hw2 : 0 ≤ w.x ∧ w.x < (b.size_x : Int) ∧ 0 ≤ w.y ∧ w.y < (b.size_y : Int) := by
    simpa [in_bounds] using hw
  by_cases hl : in_bounds b l = true
  · have hl2 : 0 ≤ l.x ∧ l.x < (b.size_x : Int) ∧ 0 ≤ l.y ∧ l.y < (b.size_y : Int) := by
      simpa [in_bounds] using hl
    rw [get_at, get_at, in_bounds_writeCell, hl, if_pos rfl, if_pos rfl]
    rcases hne with hne | hne
    · have hxx : w.x.toNat ≠ l.x.toNat := by omega
      rw [writeCell]
      rw [getD_set_ne _ _ _ _ _ hxx]
    · by_cases hx : w.x.toNat = l.x.toNat
      · have hyy : w.y.toNat ≠ l.y.toNat := by omega
        rw [writeCell]
        by_cases hlen : w.x.toNat < b.board.length
        · rw [hx, getD_set_self _ _ _ _ (by omega), ← hx]
          rw [getD_set_ne _ _ _ _ _ hyy]
        · rw [set_of_length_le _ _ _ (by omega)]
      · rw [writeCell]
        rw [getD_set_ne _ _ _ _ _ hx]
  · have hl2 : in_bounds (writeCell b w v) l = false := by
      rw [in_bounds_writeCell]; simpa using hl
    rw [get_at, get_at, hl2]
    simp only [Bool.false_eq_true, if_false]
    rw [if_neg (by simpa using hl)]

/-- C7 amended: is_connection_between never inspects the cell at the leap's
origin — overwriting that (in-bounds) cell with any value, Empty included,
does not change the verdict. -/
theorem c7_amended_frm_cell_ignored (b : Board) (frm tgt : Location)
    (player : Player) (v : BoardValue) (hf : in_bounds b frm = true) :
    is_connection_between (writeCell b frm v) frm tgt player =
      is_connection_between b frm tgt player := by
  have hp : ∀ dx dy : Int, ¬(dx = 0 ∧ dy = 0) → ∀ pl,
      proxy_is_color_at (writeCell b frm v) frm dx dy pl =
        proxy_is_color_at b frm dx dy pl := by
    intro dx dy hne pl
    unfold proxy_is_color_at is_color_at
    rw [get_at_writeCell_ne b frm ⟨frm.x + dx, frm.y + dy⟩ v hf (by
      by_cases hdx : dx = 0
      · right; subst hdx; simp only []; omega
      · left; simp only []; omega)]
  unfold is_connection_between
  simp only [hp 0 1 (by omega), hp 1 1 (by omega), hp 1 0 (by omega), hp 2 0 (by omega),
    hp 0 (-1) (by omega), hp 1 (-1) (by omega), hp (-1) 1 (by omega), hp (-1) 0 (by omega),
    hp (-2) 0 (by omega), hp (-1) (-1) (by omega), hp 0 2 (by omega), hp 0 (-2) (by omega)]

/-- Witness for the amended C7: emptying the occupied-or-not origin cell
(5,5) leaves the verdict unchanged on a concrete board. -/
theorem c7_amended_frm_cell_ignored_witness :
    in_bounds Board.default ⟨5, 5⟩ = true ∧
    is_connection_between (writeCell Board.default ⟨5, 5⟩ BoardValue.empty)
        ⟨5, 5⟩ ⟨7, 6⟩ Player.white =
      is_connection_between Board.default ⟨5, 5⟩ ⟨7, 6⟩ Player.white :=
  ⟨by decide, c7_amended_frm_cell_ignored Board.default ⟨5, 5⟩ ⟨7, 6⟩ Player.white
    BoardValue.empty (by decide)⟩

/-- C4: for each of the eight leap offsets of the spec's table, the source's
connection verdict is exactly: NOT (some flanking cell of side A is
opponent-occupied AND some flanking cell of side B is opponent-occupied). -/
theorem c4_flank_pair_table (b : Board) (frm : Location) (mover : Player)
    (off : Int × Int) (pA pB : (Int × Int) × (Int × Int))
    (h : (off, pA, pB) ∈ specFlankPairs) :
    connClear b frm ⟨frm.x + off.1, frm.y + off.2⟩ mover =
      !((oppAt b frm mover pA.1 || oppAt b frm mover pA.2) &&
        (oppAt b frm mover pB.1 || oppAt b frm mover pB.2)) := by
  have hx : ∀ t : Int, frm.x + t - frm.x = t := fun t => by ring
  have hy : ∀ t : Int, frm.y + t - frm.y = t := fun t => by ring
  obtain ⟨ox, oy⟩ := off
  obtain ⟨⟨a1x, a1y⟩, ⟨a2x, a2y⟩⟩ := pA
  obtain ⟨⟨b1x, b1y⟩, ⟨b2x, b2y⟩⟩ := pB
  simp only [specFlankPairs, List.mem_cons, List.not_mem_nil, or_false,
    Prod.mk.injEq] at h
  rcases h with h | h | h | h | h | h | h | h <;>
  · obtain ⟨⟨rfl, rfl⟩, ⟨⟨⟨rfl, rfl⟩, ⟨rfl, rfl⟩⟩, ⟨⟨rfl, rfl⟩, ⟨rfl, rfl⟩⟩⟩⟩ := h
    simp only [connClear, is_connection_between, oppAt, proxy_is_color_at]
    norm_num [hx, hy]



/-- Witness for C4 at the first table row on a concrete board. -/
theorem c4_flank_pair_table_witness :
    (((2, 1), ((0, 1), (1, 1)), ((1, 0), (2, 0))) ∈ specFlankPairs) ∧
    connClear Board.default ⟨5, 5⟩
        ⟨(⟨5, 5⟩ : Location).x + ((2 : Int), (1 : Int)).1,
         (⟨5, 5⟩ : Location).y + ((2 : Int), (1 : Int)).2⟩ Player.white =
      !((oppAt Board.default ⟨5, 5⟩ Player.white (((0 : Int), (1 : Int)), ((1 : Int), (1 : Int))).1 ||
         oppAt Board.default ⟨5, 5⟩ Player.white (((0 : Int), (1 : Int)), ((1 : Int), (1 : Int))).2) &&
        (oppAt Board.default ⟨5, 5⟩ Player.white (((1 : Int), (0 : Int)), ((2 : Int), (0 : Int))).1 ||
         oppAt Board.default ⟨5, 5⟩ Player.white (((1 : Int), (0 : Int)), ((2 : Int), (0 : Int))).2)) :=
  ⟨by decide, c4_flank_pair_table Board.default ⟨5, 5⟩ Player.white (2, 1)
    ((0, 1), (1, 1)) ((1, 0), (2, 0)) (by decide)⟩

/-- Folding insertion of a list into a Finset is union with its toFinset. -/
lemma foldl_insert_eq_union (l : List Location) (s : Finset Location) :
    l.foldl (fun t i => insert i t) s = s ∪ l.toFinset := by
  induction l generalizing s with
  | nil => simp
  | cons hd tl ih =>
    simp only [List.foldl_cons, List.toFinset_cons, ih, Finset.insert_union,
      Finset.union_insert]

/-- Anatomy of a successful make_move: the legality test passed, every
fallible step returned ok, the capture loop succeeded, and the resulting
position is built from their outputs exactly as in the source. -/
lemma make_move_success_shape (pos : Position) (loc : Location)
    (h : (make_move pos loc).2 = none) :
    ∃ board1 cut cloud board2,
      loc ∈ legal_moves pos ∧
      in_bounds pos.board loc = true ∧
      board1 = writeCell pos.board loc (BoardValue.filled pos.turn) ∧
      get_cut_off_squares board1 loc = Except.ok cut ∧
      get_connection_cloud board1 loc = Except.ok cloud ∧
      captureLoop board1 (cloud.filter (fun i => is_color_at board1 i pos.turn.switch)) =
        (board2, none) ∧
      ((make_move pos loc).1).board = board2 ∧
      ((make_move pos loc).1).turn = pos.turn.switch ∧
      legalFor (make_move pos loc).1 pos.turn =
        ((legalFor pos pos.turn ∪ (get_reachable board1 loc pos.turn).toFinset).erase loc) ∧
      legalFor (make_move pos loc).1 pos.turn.switch =
        cut.foldl (fun s i => s.erase i) ((legalFor pos pos.turn.switch).erase loc) := by
  by_cases hleg : loc ∈ legal_moves pos
  case neg => simp [make_move, hleg] at h
  rcases hip : insert_piece pos.board pos.turn loc with e | board1
  · simp [make_move, hleg, hip] at h
  have hin : in_bounds pos.board loc = true := by
    by_contra hin
    unfold insert_piece at hip
    rw [if_neg hin] at hip
    exact Except.noConfusion hip
  have hb1 : board1 = writeCell pos.board loc (BoardValue.filled pos.turn) := by
    unfold insert_piece at hip
    rw [if_pos hin] at hip
    exact (Except.ok.injEq .. ▸ hip).symm
  rcases hcut : get_cut_off_squares board1 loc with e | cut
  · simp [make_move, hleg, hip, hcut] at h
  rcases hcl : get_connection_cloud board1 loc with e | cloud
  · simp [make_move, hleg, hip, hcut, hcl] at h
  rcases hcap : captureLoop board1
      (cloud.filter (fun i => is_color_at board1 i pos.turn.switch)) with ⟨board2, oe⟩
  cases oe with
  | some e => simp [make_move, hleg, hip, hcut, hcl, hcap] at h
  | none =>
    refine ⟨board1, cut, cloud, board2, hleg, hin, hb1, hcut, hcl, hcap, ?_, ?_, ?_, ?_⟩ <;>
    · cases ht : pos.turn <;>
        simp only [ht, Player.switch] at hip hcap <;>
        simp [make_move, hleg, hip, hcut, hcl, hcap, ht, legalFor, Player.switch,
          foldl_insert_eq_union]


/-- C1 amended: after any successful placement the mover's legal set is the
old set united with all of reachable_from (no Empty filter), minus the placed
coordinate. -/
theorem c1_amended_mover_set_equation (pos : Position) (loc : Location)
    (h : (make_move pos loc).2 = none) :
    legalFor (make_move pos loc).1 pos.turn =
      ((legalFor pos pos.turn ∪
        (get_reachable (writeCell pos.board loc (BoardValue.filled pos.turn))
          loc pos.turn).toFinset).erase loc) := by
  obtain ⟨board1, cut, cloud, board2, -, -, hb1, -, -, -, -, -, hmover, -⟩ :=
    make_move_success_shape pos loc h
  rw [hmover, hb1]

/-- Witness for the amended C1 at the first move of a game. -/
theorem c1_amended_mover_set_equation_witness :
    (make_move Position.default ⟨0, 0⟩).2 = none ∧
    legalFor (make_move Position.default ⟨0, 0⟩).1 Position.default.turn =
      ((legalFor Position.default Position.default.turn ∪
        (get_reachable (writeCell Position.default.board ⟨0, 0⟩
          (BoardValue.filled Position.default.turn)) ⟨0, 0⟩
          Position.default.turn).toFinset).erase ⟨0, 0⟩) :=
  ⟨by decide, c1_amended_mover_set_equation Position.default ⟨0, 0⟩ (by decide)⟩

/-- Reading any cell of a written board yields either the old value there or
the written value. -/
lemma get_at_writeCell_cases (b : Board) (w l : Location) (v : BoardValue) :
    get_at (writeCell b w v) l = get_at b l ∨ get_at (writeCell b w v) l = Except.ok v := by
  by_cases hl : in_bounds b l = true
  · rw [get_at, get_at, in_bounds_writeCell, hl, if_pos rfl, if_pos rfl]
    by_cases hx : w.x.toNat = l.x.toNat
    · by_cases hlen : w.x.toNat < b.board.length
      · rw [writeCell]
        simp only
        rw [← hx, getD_set_self _ _ _ _ hlen]
        by_cases hy : w.y.toNat = l.y.toNat
        · by_cases hylen : w.y.toNat < (b.board.getD w.x.toNat []).length
          · right
            rw [← hy, getD_set_self _ _ _ _ hylen]
          · left
            rw [set_of_length_le _ _ _ (by omega), hx]
        · left
          rw [getD_set_ne _ _ _ _ _ hy, hx]
      · left
        rw [writeCell]
        simp only
        rw [set_of_length_le _ _ _ (by omega)]
    · left
      rw [writeCell]
      simp only
      rw [getD_set_ne _ _ _ _ _ hx]
  · left
    rw [get_at, get_at, in_bounds_writeCell]
    rw [if_neg (by simpa using hl), if_neg (by simpa using hl)]

/-- getD of replicate below the length is the replicated element. -/
lemma getD_replicate {α : Type} (n i : Nat) (a d : α) (h : i < n) :
    (List.replicate n a).getD i d = a := by
  induction n generalizing i with
  | zero => omega
  | succ n2 ih =>
    cases i with
    | zero => simp [List.replicate]
    | succ i2 => simpa [List.replicate] using ih i2 (by omega)

/-- Reading back the written cell, when its indices are inside the stored
lists. -/
lemma get_at_writeCell_self (b : Board) (w : Location) (v : BoardValue)
    (hw : in_bounds b w = true) (h2 : w.x.toNat < b.board.length)
    (h3 : w.y.toNat < (b.board.getD w.x.toNat []).length) :
    get_at (writeCell b w v) w = Except.ok v := by
  rw [get_at, in_bounds_writeCell, hw, if_pos rfl, writeCell]
  simp only
  rw [getD_set_self _ _ _ _ h2, getD_set_self _ _ _ _ h3]

/-- Every cell of a board obtained by one Black write on the default board is
Empty or Black, so no cell is White. -/
lemma no_white_after_black_write_on_default (loc z : Location) :
    is_color_at (writeCell Board.default loc (BoardValue.filled Player.black))
      z Player.white = false := by
  have hdef : ∀ y : Location, get_at Board.default y = Except.ok BoardValue.empty ∨
      get_at Board.default y = Except.error ErrorKind.invalidInput := by
    intro y
    rw [get_at]
    by_cases hy : in_bounds Board.default y = true
    · left
      rw [hy, if_pos rfl]
      show Except.ok (((List.replicate 13 (List.replicate 13 BoardValue.empty)).getD
        y.x.toNat []).getD y.y.toNat BoardValue.empty) = _
      have hy2 : 0 ≤ y.x ∧ y.x < (13 : Int) ∧ 0 ≤ y.y ∧ y.y < (13 : Int) := by
        simpa [in_bounds, Board.default] using hy
      rw [getD_replicate _ _ _ _ (by omega), getD_replicate _ _ _ _ (by omega)]
    · right
      rw [if_neg (by simpa using hy)]
  unfold is_color_at
  rcases get_at_writeCell_cases Board.default loc z (BoardValue.filled Player.black) with
    hc | hc
  · rw [hc]
    rcases hdef z with hd | hd <;> rw [hd] <;> rfl
  · rw [hc]
    rfl

/-- C10: Player's Default is Black, the fresh Position has turn Black, and
whenever the first call to make_move on the default position succeeds, the
placed coordinate holds a Black piece afterwards. -/
theorem c10_black_moves_first :
    Player.default = Player.black ∧
    Position.default.turn = Player.black ∧
    ∀ loc : Location, (make_move Position.default loc).2 = none →
      get_at ((make_move Position.default loc).1).board loc =
        Except.ok (BoardValue.filled Player.black) := by
  refine ⟨rfl, rfl, fun loc h => ?_⟩
  obtain ⟨board1, cut, cloud, board2, hleg, hin, hb1, hcut, hcl, hcap, hboard, -, -, -⟩ :=
    make_move_success_shape Position.default loc h
  have hseeds : cloud.filter
      (fun i => is_color_at board1 i Position.default.turn.switch) = [] := by
    rw [List.filter_eq_nil_iff]
    intro a _
    rw [hb1]
    show ¬ (is_color_at (writeCell Board.default loc (BoardValue.filled Player.black))
      a Player.white = true)
    rw [no_white_after_black_write_on_default]
    exact Bool.false_ne_true
  rw [hseeds] at hcap
  have hb2 : board2 = board1 := by
    have : (board1, (none : Option ErrorKind)) = (board2, none) := hcap
    exact (Prod.mk.injEq .. ▸ this).1.symm
  rw [hboard, hb2, hb1]
  have hin2 : 0 ≤ loc.x ∧ loc.x < (13 : Int) ∧ 0 ≤ loc.y ∧ loc.y < (13 : Int) := by
    simpa [in_bounds, Board.default, Position.default] using hin
  refine get_at_writeCell_self _ _ _ hin ?_ ?_
  · show loc.x.toNat < (List.replicate 13 (List.replicate 13 BoardValue.empty)).length
    simp only [List.length_replicate]
    omega
  · show loc.y.toNat < ((List.replicate 13 (List.replicate 13 BoardValue.empty)).getD
      loc.x.toNat []).length
    rw [getD_replicate _ _ _ _ (by omega : loc.x.toNat < 13)]
    simp only [List.length_replicate]
    omega

/-- Witness for C10 at the concrete first move (0,0). -/
theorem c10_black_moves_first_witness :
    (make_move Position.default ⟨0, 0⟩).2 = none ∧
    get_at ((make_move Position.default ⟨0, 0⟩).1).board ⟨0, 0⟩ =
      Except.ok (BoardValue.filled Player.black) :=
  ⟨by decide, c10_black_moves_first.2.2 ⟨0, 0⟩ (by decide)⟩

/-- Membership in inBoundsCells is the in_bounds test. -/
lemma mem_inBoundsCells (b : Board) (l : Location) :
    l ∈ inBoundsCells b ↔ in_bounds b l = true := by
  obtain ⟨x, y⟩ := l
  unfold inBoundsCells in_bounds
  simp only [Finset.mem_image, Finset.mem_product, Finset.mem_range, decide_eq_true_eq,
    Location.mk.injEq]
  constructor
  · rintro ⟨⟨i, j⟩, ⟨hi, hj⟩, hx, hy⟩
    simp only at hi hj hx hy
    omega
  · rintro ⟨h1, h2, h3, h4⟩
    refine ⟨(x.toNat, y.toNat), ⟨?_, ?_⟩, ?_, ?_⟩ <;> simp only <;> omega

/-- The board has at most size_x * size_y in-bounds cells. -/
lemma card_inBoundsCells_le (b : Board) :
    (inBoundsCells b).card ≤ b.size_x * b.size_y := by
  calc (inBoundsCells b).card
      ≤ (Finset.range b.size_x ×ˢ Finset.range b.size_y).card := Finset.card_image_le
    _ = b.size_x * b.size_y := by rw [Finset.card_product, Finset.card_range, Finset.card_range]

/-- A cell holding a piece of some colour is in bounds. -/
lemma is_color_at_true_in_bounds (b : Board) (l : Location) (p : Player)
    (h : is_color_at b l p = true) : in_bounds b l = true := by
  by_cases hb : in_bounds b l = true
  · exact hb
  · unfold is_color_at get_at at h
    simp [hb] at h

/-- Main invariant lemma for the depth-first search of connection_to_edge:
given the invariants the loop maintains, the search terminates within the
fuel bound, a "connected" outcome exhibits a component cell on the border,
and a "disconnected" outcome returns exactly the connected component of the
seed, duplicate-free, border-free and in bounds. -/
lemma dfs_go (ro : List Location → List Location) (hro : ∀ l, List.Perm (ro l) l)
    (b : Board) (p : Player) (seed : Location) :
    ∀ (fuel : Nat) (visited stack : List Location),
    (∀ x ∈ visited, connectedFrom b p seed x) →
    (∀ x ∈ visited, edge_hit b x = false) →
    (∀ x ∈ visited, in_bounds b x = true) →
    visited.Nodup →
    (∀ x ∈ stack, connectedFrom b p seed x) →
    (∀ x ∈ stack, in_bounds b x = true) →
    (seed ∈ visited ∨ seed ∈ stack) →
    (∀ x ∈ visited, ∀ y, reachStep b p x y → y ∈ visited ∨ y ∈ stack) →
    9 * ((inBoundsCells b).card - visited.length) + stack.length < fuel →
    ∃ r, dfs ro b p fuel visited stack = some r ∧
      (r = none → ∃ z, connectedFrom b p seed z ∧ edge_hit b z = true) ∧
      (∀ V, r = some V → (∀ z, z ∈ V ↔ connectedFrom b p seed z) ∧ V.Nodup ∧
        (∀ z ∈ V, edge_hit b z = false) ∧ (∀ z ∈ V, in_bounds b z = true)) := by
  intro fuel
  induction fuel with
  | zero => intro visited stack _ _ _ _ _ _ _ _ hfuel; omega
  | succ fuel ih =>
    intro visited stack hv1 hv2 hv3 hv4 hs1 hs2 hseed hclose hfuel
    cases stack with
    | nil =>
      refine ⟨some visited, by simp [dfs], fun hr => Option.noConfusion hr, ?_⟩
      intro V hV
      obtain rfl : visited = V := by injection hV
      have hseedv : seed ∈ visited := hseed.resolve_right (List.not_mem_nil seed)
      have hcl : ∀ x ∈ visited, ∀ y, reachStep b p x y → y ∈ visited := by
        intro x hx y hy
        rcases hclose x hx y hy with h | h
        · exact h
        · exact absurd h (List.not_mem_nil y)
      refine ⟨fun z => ⟨hv1 z, ?_⟩, hv4, hv2, hv3⟩
      intro hz
      induction hz with
      | refl => exact hseedv
      | tail h1 h2 ih2 => exact hcl _ ih2 _ h2
    | cons coordinate rest =>
      by_cases hmem : coordinate ∈ visited
      · have heq : dfs ro b p (Nat.succ fuel) visited (coordinate :: rest) =
            dfs ro b p fuel visited rest := by
          simp [dfs, hmem]
        rw [heq]
        refine ih visited rest hv1 hv2 hv3 hv4
          (fun x hx => hs1 x (List.mem_cons_of_mem _ hx))
          (fun x hx => hs2 x (List.mem_cons_of_mem _ hx)) ?_ ?_ (by
            simp only [List.length_cons] at hfuel; omega)
        · rcases hseed with h | h
          · exact Or.inl h
          · rcases List.mem_cons.mp h with rfl | h
            · exact Or.inl hmem
            · exact Or.inr h
        · intro x hx y hy
          rcases hclose x hx y hy with h | h
          · exact Or.inl h
          · rcases List.mem_cons.mp h with rfl | h
            · exact Or.inl hmem
            · exact Or.inr h
      · by_cases hedge : edge_hit b coordinate = true
        · refine ⟨none, by simp [dfs, hmem, hedge], ?_, ?_⟩
          · exact fun _ => ⟨coordinate, hs1 coordinate (List.mem_cons_self _ _), hedge⟩
          · intro V hV; exact Option.noConfusion hV
        · have hcin : in_bounds b coordinate = true := hs2 coordinate (List.mem_cons_self _ _)
          have hccon : connectedFrom b p seed coordinate :=
            hs1 coordinate (List.mem_cons_self _ _)
          set visited2 := coordinate :: visited with hvis2
          set pushes := ro (((get_reachable b coordinate p).filter
              (fun i => is_color_at b i p)).filter
              (fun i => decide (¬ i ∈ visited2))) with hpush
          have heq : dfs ro b p (Nat.succ fuel) visited (coordinate :: rest) =
              dfs ro b p fuel visited2 (pushes.reverse ++ rest) := by
            simp [dfs, hmem, hedge, hvis2, hpush]
          rw [heq]
          have hpush_mem : ∀ i, i ∈ pushes ↔
              (reachStep b p coordinate i ∧ ¬ i ∈ visited2) := by
            intro i
            rw [hpush, (hro _).mem_iff, List.mem_filter, List.mem_filter]
            unfold get_reachable
            rw [List.mem_filter]
            constructor
            · rintro ⟨⟨⟨h1, h2⟩, h3⟩, h4⟩
              exact ⟨⟨h1, h2, h3⟩, by simpa using h4⟩
            · rintro ⟨⟨h1, h2, h3⟩, h4⟩
              exact ⟨⟨⟨h1, h2⟩, h3⟩, by simpa using h4⟩
          have hpush_len : pushes.length ≤ 8 := by
            have h1 := (hro (((get_reachable b coordinate p).filter
              (fun i => is_color_at b i p)).filter
              (fun i => decide (¬ i ∈ visited2)))).length_eq
            rw [hpush, h1]
            have h2 := List.length_filter_le
              (fun i => decide (¬ i ∈ visited2))
              ((get_reachable b coordinate p).filter (fun i => is_color_at b i p))
            have h3 := List.length_filter_le (fun i => is_color_at b i p)
              (get_reachable b coordinate p)
            have h4 : (get_reachable b coordinate p).length ≤ 8 := by
              unfold get_reachable connections_around
              have h5 := List.length_filter_le
                (fun square => connClear b coordinate square p)
                (connections_around b coordinate)
              unfold connections_around at h5
              have h6 := List.length_filter_le
                (fun i => decide (0 ≤ i.x ∧ i.x < (b.size_x : Int) ∧ 0 ≤ i.y ∧
                  i.y < (b.size_y : Int)))
                [get_absolute coordinate ⟨-2, 1⟩, get_absolute coordinate ⟨2, 1⟩,
                 get_absolute coordinate ⟨2, -1⟩, get_absolute coordinate ⟨-2, -1⟩,
                 get_absolute coordinate ⟨-1, 2⟩, get_absolute coordinate ⟨1, 2⟩,
                 get_absolute coordinate ⟨1, -2⟩, get_absolute coordinate ⟨-1, -2⟩]
              simp only [List.length_cons, List.length_nil] at h6
              omega
            omega
          have hlen_lt : visited.length < (inBoundsCells b).card := by
            have hsub : visited2.toFinset ⊆ inBoundsCells b := by
              intro z hz
              rw [mem_inBoundsCells]
              rcases List.mem_cons.mp (List.mem_toFinset.mp hz) with rfl | hz2
              · exact hcin
              · exact hv3 z hz2
            have hnodup2 : visited2.Nodup := List.nodup_cons.mpr ⟨hmem, hv4⟩
            have hcard : visited2.toFinset.card = visited2.length :=
              List.toFinset_card_of_nodup hnodup2
            have := Finset.card_le_card hsub
            rw [hcard] at this
            simp only [hvis2, List.length_cons] at this
            omega
          refine ih visited2 (pushes.reverse ++ rest) ?_ ?_ ?_
            (List.nodup_cons.mpr ⟨hmem, hv4⟩) ?_ ?_ ?_ ?_ ?_
          · intro x hx
            rcases List.mem_cons.mp hx with rfl | hx2
            · exact hccon
            · exact hv1 x hx2
          · intro x hx
            rcases List.mem_cons.mp hx with rfl | hx2
            · exact Bool.not_eq_true _ ▸ hedge
            · exact hv2 x hx2
          · intro x hx
            rcases List.mem_cons.mp hx with rfl | hx2
            · exact hcin
            · exact hv3 x hx2
          · intro x hx
            rcases List.mem_append.mp hx with hx2 | hx2
            · have := (hpush_mem x).mp (List.mem_reverse.mp hx2)
              exact Relation.ReflTransGen.tail hccon this.1
            · exact hs1 x (List.mem_cons_of_mem _ hx2)
          · intro x hx
            rcases List.mem_append.mp hx with hx2 | hx2
            · have := (hpush_mem x).mp (List.mem_reverse.mp hx2)
              exact is_color_at_true_in_bounds b x p this.1.2.2
            · exact hs2 x (List.mem_cons_of_mem _ hx2)
          · rcases hseed with h | h
            · exact Or.inl (List.mem_cons_of_mem _ h)
            · rcases List.mem_cons.mp h with rfl | h2
              · exact Or.inl (List.mem_cons_self _ _)
              · exact Or.inr (List.mem_append.mpr (Or.inr h2))
          · intro x hx y hy
            rcases List.mem_cons.mp hx with rfl | hx2
            · by_cases hyv : y ∈ visited2
              · exact Or.inl hyv
              · refine Or.inr (List.mem_append.mpr (Or.inl ?_))
                exact List.mem_reverse.mpr ((hpush_mem y).mpr ⟨hy, hyv⟩)
            · rcases hclose x hx2 y hy with h | h
              · exact Or.inl (List.mem_cons_of_mem _ h)
              · rcases List.mem_cons.mp h with rfl | h2
                · exact Or.inl (List.mem_cons_self _ _)
                · exact Or.inr (List.mem_append.mpr (Or.inr h2))
          · have hlr : (pushes.reverse ++ rest).length = pushes.length + rest.length := by
              rw [List.length_append, List.length_reverse]
            simp only [List.length_cons] at hfuel
            simp only [hvis2, List.length_cons, hlr]
            omega



/-- Characterization of connection_to_edgeWith for any push order: it never
errors on an occupied seed, returns None exactly when the seed's connected
component touches the border, and otherwise returns precisely the component. -/
lemma connection_to_edgeWith_spec (ro : List Location → List Location)
    (hro : ∀ l, List.Perm (ro l) l) (b : Board) (p : Player) (seed : Location)
    (hseed : get_at b seed = Except.ok (BoardValue.filled p)) :
    ∃ r, connection_to_edgeWith ro b seed = Except.ok r ∧
      (r = none ↔ ∃ z, connectedFrom b p seed z ∧ edge_hit b z = true) ∧
      (∀ V, r = some V → (∀ z, z ∈ V ↔ connectedFrom b p seed z) ∧ V.Nodup ∧
        (∀ z ∈ V, edge_hit b z = false) ∧ (∀ z ∈ V, in_bounds b z = true)) := by
  have hin : in_bounds b seed = true := by
    by_contra hin
    unfold get_at at hseed
    simp [hin] at hseed
  obtain ⟨r, hdfs, hnone, hsome⟩ :=
    dfs_go ro hro b p seed (9 * (b.size_x * b.size_y) + 9) [] [seed]
      (by simp) (by simp) (by simp) List.nodup_nil
      (by intro x hx
          rcases List.mem_cons.mp hx with rfl | hx2
          · exact Relation.ReflTransGen.refl
          · exact absurd hx2 (List.not_mem_nil x))
      (by intro x hx
          rcases List.mem_cons.mp hx with rfl | hx2
          · exact hin
          · exact absurd hx2 (List.not_mem_nil x))
      (Or.inr (List.mem_cons_self _ _))
      (by simp)
      (by have := card_inBoundsCells_le b
          simp only [List.length_nil, List.length_cons, Nat.sub_zero]
          omega)
  refine ⟨r, ?_, ⟨hnone, ?_⟩, hsome⟩
  · unfold connection_to_edgeWith
    rw [hseed]
    show (match dfs ro b p (9 * (b.size_x * b.size_y) + 9) [] [seed] with
      | some r2 => Except.ok r2
      | none => Except.error ErrorKind.invalidInput) = Except.ok r
    rw [hdfs]
  · rintro ⟨z, hz, hze⟩
    cases r with
    | none => rfl
    | some V =>
      obtain ⟨hmem, -, hedge, -⟩ := hsome V rfl
      exact absurd hze (by rw [hedge z ((hmem z).mpr hz)]; exact Bool.false_ne_true)

/-- Clearing a list of in-bounds cells never errors. -/
lemma clearAll_snd_none (b : Board) (V : List Location)
    (hV : ∀ z ∈ V, in_bounds b z = true) : (clearAll b V).2 = none := by
  induction V generalizing b with
  | nil => rfl
  | cons w rest ih =>
    have hw : in_bounds b w = true := hV w (List.mem_cons_self _ _)
    unfold clearAll clear_at
    rw [hw]
    simp only [if_pos rfl]
    exact ih (writeCell b w BoardValue.empty)
      (fun z hz => by rw [in_bounds_writeCell]; exact hV z (List.mem_cons_of_mem _ hz))

/-- getD past the end of the list is the default. -/
lemma getD_of_length_le {α : Type} (l : List α) (i : Nat) (d : α)
    (h : l.length ≤ i) : l.getD i d = d := by
  induction l generalizing i with
  | nil => simp
  | cons hd tl ih =>
    cases i with
    | zero => simp at h
    | succ i2 => simpa using ih i2 (by simpa using h)

/-- Reading back an in-bounds cell just overwritten with Empty gives Empty
(the getD defaults are Empty as well, so no length side conditions are
needed). -/
lemma get_at_writeCell_empty_self (b : Board) (w : Location)
    (hw : in_bounds b w = true) :
    get_at (writeCell b w BoardValue.empty) w = Except.ok BoardValue.empty := by
  rw [get_at, in_bounds_writeCell, hw, if_pos rfl, writeCell]
  simp only
  by_cases hlen : w.x.toNat < b.board.length
  · rw [getD_set_self _ _ _ _ hlen]
    by_cases hylen : w.y.toNat < (b.board.getD w.x.toNat []).length
    · rw [getD_set_self _ _ _ _ hylen]
    · have h1 : (b.board.getD w.x.toNat []).length ≤ w.y.toNat := by omega
      rw [set_of_length_le _ _ _ h1, getD_of_length_le _ _ _ h1]
  · have h1 : b.board.length ≤ w.x.toNat := by omega
    rw [set_of_length_le _ _ _ h1, getD_of_length_le _ _ _ h1]
    rfl

/-- After clearing all cells of a list, every cell of the list reads Empty
(and a cell that was already Empty stays Empty). -/
lemma clearAll_get_at (b : Board) (V : List Location) (z : Location)
    (hV : ∀ w ∈ V, in_bounds b w = true)
    (hz : z ∈ V ∨ get_at b z = Except.ok BoardValue.empty) :
    get_at (clearAll b V).1 z = Except.ok BoardValue.empty := by
  induction V generalizing b with
  | nil =>
    rcases hz with hz | hz
    · exact absurd hz (List.not_mem_nil z)
    · exact hz
  | cons w rest ih =>
    have hw : in_bounds b w = true := hV w (List.mem_cons_self _ _)
    unfold clearAll clear_at
    rw [hw]
    simp only [if_pos rfl]
    refine ih (writeCell b w BoardValue.empty)
      (fun u hu => by rw [in_bounds_writeCell]; exact hV u (List.mem_cons_of_mem _ hu)) ?_
    rcases hz with hz | hz
    · rcases List.mem_cons.mp hz with rfl | hz2
      · exact Or.inr (get_at_writeCell_empty_self b z hw)
      · exact Or.inl hz2
    · refine Or.inr ?_
      rcases get_at_writeCell_cases b w z BoardValue.empty with hc | hc <;> rw [hc]
      exact hz

/-- C5: for every board and occupied seed, connection_to_edge reports
"connected" (None, so nothing is removed) exactly when the depth-first
traversal can reach a border cell of the seed's same-colour component; when it
reports a removal set, that set is the entire connected component of the seed,
none of it on the border, and the capture step clears every one of its cells
from the Grid without error. -/
theorem c5_group_disconnected_capture (b : Board) (p : Player) (seed : Location)
    (hseed : get_at b seed = Except.ok (BoardValue.filled p)) :
    (connection_to_edge b seed = Except.ok none ↔
      ∃ z, connectedFrom b p seed z ∧ edge_hit b z = true) ∧
    (∀ V, connection_to_edge b seed = Except.ok (some V) →
      (∀ z, z ∈ V ↔ connectedFrom b p seed z) ∧
      (∀ z ∈ V, edge_hit b z = false) ∧
      (capture_piece b seed V).2 = none ∧
      (∀ z ∈ V, get_at (capture_piece b seed V).1 z = Except.ok BoardValue.empty)) := by
  obtain ⟨r, hres, hiff, hsome⟩ :=
    connection_to_edgeWith_spec id (fun l => List.Perm.refl l) b p seed hseed
  have hce : connection_to_edge b seed = Except.ok r := hres
  constructor
  · rw [hce]
    constructor
    · intro h
      exact hiff.mp (by injection h)
    · intro h
      rw [hiff.mpr h]
  · intro V hV
    rw [hce] at hV
    have hrV : r = some V := by injection hV
    obtain ⟨hmem, hnodup, hedge, hinb⟩ := hsome V hrV
    refine ⟨hmem, hedge, ?_, ?_⟩
    · exact clearAll_snd_none b V hinb
    · exact fun z hz => clearAll_get_at b V z hinb (Or.inl hz)

/-- Witness for C5 on the two-stone disconnected Black group of boardStar
after the White placement at (6,6). -/
theorem c5_group_disconnected_capture_witness :
    get_at (setPiece boardStar Player.white ⟨6, 6⟩) ⟨8, 6⟩ =
      Except.ok (BoardValue.filled Player.black) ∧
    ((connection_to_edge (setPiece boardStar Player.white ⟨6, 6⟩) ⟨8, 6⟩ =
        Except.ok none ↔
      ∃ z, connectedFrom (setPiece boardStar Player.white ⟨6, 6⟩) Player.black ⟨8, 6⟩ z ∧
        edge_hit (setPiece boardStar Player.white ⟨6, 6⟩) z = true) ∧
    (∀ V, connection_to_edge (setPiece boardStar Player.white ⟨6, 6⟩) ⟨8, 6⟩ =
        Except.ok (some V) →
      (∀ z, z ∈ V ↔ connectedFrom (setPiece boardStar Player.white ⟨6, 6⟩)
        Player.black ⟨8, 6⟩ z) ∧
      (∀ z ∈ V, edge_hit (setPiece boardStar Player.white ⟨6, 6⟩) z = false) ∧
      (capture_piece (setPiece boardStar Player.white ⟨6, 6⟩) ⟨8, 6⟩ V).2 = none ∧
      (∀ z ∈ V, get_at (capture_piece (setPiece boardStar Player.white ⟨6, 6⟩) ⟨8, 6⟩ V).1 z =
        Except.ok BoardValue.empty))) :=
  ⟨by decide, c5_group_disconnected_capture (setPiece boardStar Player.white ⟨6, 6⟩)
    Player.black ⟨8, 6⟩ (by decide)⟩

/-- C8: the edge-connectivity search records each cell at most once, and its
verdict and removal set are independent of the neighbour-exploration order:
any permutation-reordering of the pushed neighbours yields the same verdict
as the source order and an equal removal set. -/
theorem c8_traversal_order_independent (b : Board) (p : Player) (seed : Location)
    (ro : List Location → List Location) (hro : ∀ l, List.Perm (ro l) l)
    (hseed : get_at b seed = Except.ok (BoardValue.filled p)) :
    (connection_to_edgeWith ro b seed = Except.ok none ↔
      connection_to_edge b seed = Except.ok none) ∧
    (∀ V1 V2, connection_to_edgeWith ro b seed = Except.ok (some V1) →
      connection_to_edge b seed = Except.ok (some V2) →
      V1.toFinset = V2.toFinset ∧ V1.Nodup ∧ V2.Nodup) := by
  obtain ⟨r1, hres1, hiff1, hsome1⟩ :=
    connection_to_edgeWith_spec ro hro b p seed hseed
  obtain ⟨r2, hres2, hiff2, hsome2⟩ :=
    connection_to_edgeWith_spec id (fun l => List.Perm.refl l) b p seed hseed
  have hce : connection_to_edge b seed = Except.ok r2 := hres2
  constructor
  · rw [hres1, hce]
    constructor
    · intro h
      rw [hiff2.mpr (hiff1.mp (by injection h))]
    · intro h
      rw [hiff1.mpr (hiff2.mp (by injection h))]
  · intro V1 V2 h1 h2
    rw [hres1] at h1
    rw [hce] at h2
    obtain ⟨hm1, hn1, -, -⟩ := hsome1 V1 (by injection h1)
    obtain ⟨hm2, hn2, -, -⟩ := hsome2 V2 (by injection h2)
    refine ⟨?_, hn1, hn2⟩
    ext z
    rw [List.mem_toFinset, List.mem_toFinset, hm1, hm2]

/-- Witness for C8: exploring neighbours in reversed order on the boardStar
capture scenario gives the same verdict and removal set as the source order. -/
theorem c8_traversal_order_independent_witness :
    get_at (setPiece boardStar Player.white ⟨6, 6⟩) ⟨8, 6⟩ =
      Except.ok (BoardValue.filled Player.black) ∧
    ((connection_to_edgeWith List.reverse (setPiece boardStar Player.white ⟨6, 6⟩) ⟨8, 6⟩ =
        Except.ok none ↔
      connection_to_edge (setPiece boardStar Player.white ⟨6, 6⟩) ⟨8, 6⟩ = Except.ok none) ∧
    (∀ V1 V2,
      connection_to_edgeWith List.reverse (setPiece boardStar Player.white ⟨6, 6⟩) ⟨8, 6⟩ =
        Except.ok (some V1) →
      connection_to_edge (setPiece boardStar Player.white ⟨6, 6⟩) ⟨8, 6⟩ =
        Except.ok (some V2) →
      V1.toFinset = V2.toFinset ∧ V1.Nodup ∧ V2.Nodup)) :=
  ⟨by decide, c8_traversal_order_independent (setPiece boardStar Player.white ⟨6, 6⟩)
    Player.black ⟨8, 6⟩ List.reverse (fun l => List.reverse_perm l) (by decide)⟩

end Conn
